import Mathlib

/-!
Verification development for the diff ingestion, line-mapping and review
orchestration engine of `ai_code_review.py`.

The Python source is shallowly embedded as executable Lean definitions:

* `parse_diff` embeds the function `parse_diff` (source lines 43-103).
  Python dictionaries are mutable objects held by reference: the variable
  `current_hunk` and an element of `current_file["hunks"]` can alias the
  same dictionary.  The embedding makes this explicit with an arena
  (`PState.store`): hunk objects live in the arena, and both
  `current_hunk` and the per-file hunk lists hold indices into it.
* `matchHunkHeader` embeds the regular expression
  `@@ -(\d+)(?:,\d+)? \+(\d+)(?:,\d+)? @@` applied with `re.match`
  (prefix anchored, trailing text allowed); `matchFeedbackLine` embeds
  `- \*\*Line (\d+)\*\*: (.*)`.  Both regexes are deterministic (each
  greedy repetition is followed by a literal outside its class), so they
  are implemented by direct scanning.
* `pyIntStr` embeds Python `int()` applied to a string (ASCII spaces and
  sign handled; the scripts only ever apply it to digit groups).
* `process_hunk` / `hunks_loop` / `main_loop` embed the orchestration
  loop of `main` (source lines 199-235), with the two external
  collaborators (`analyze_code_with_ai` and the posting transport)
  abstracted as function parameters, exactly at the interface the code
  uses them: `analyze` returns feedback text, `annotate` returns a
  success boolean.
* `post_comment` embeds the function `post_comment` (lines 143-170) with
  the HTTP transport abstracted as a function from the request body to a
  status code.
-/

/-- ASCII decimal digit test, the character class `\d` of the patterns
(restricted to ASCII, which is all the scripts produce and consume). -/
def isDigitCh (c : Char) : Bool := decide ('0' ≤ c ∧ c ≤ '9')

/-- Value of a digit string, as computed by Python `int()` on a digit group. -/
def digitsToNat (cs : List Char) : Nat :=
  cs.foldl (fun n c => 10 * n + (c.toNat - 48)) 0

/-- Remove `p` from the front of `cs`; `none` when `p` is not a prefix. -/
def dropPrefixCh : List Char → List Char → Option (List Char)
  | [], cs => some cs
  | _ :: _, [] => none
  | p :: ps, c :: cs => if c = p then dropPrefixCh ps cs else none

/-- Python `s.startswith(p)`. -/
def startswith (s p : String) : Bool := (dropPrefixCh p.data s.data).isSome

/-- Worker for `splitlines`: `acc` holds the current line reversed. -/
def splitlinesGo (acc : List Char) : List Char → List String
  | [] => if acc.isEmpty then [] else [String.mk acc.reverse]
  | c :: rest =>
    if c = '\n' then String.mk acc.reverse :: splitlinesGo [] rest
    else splitlinesGo (c :: acc) rest

/-- Python `str.splitlines()` for `\n`-separated text: every newline ends a
line, and a final fragment without a newline is its own line (so text ending
in a newline contributes no trailing empty line). -/
def splitlines (s : String) : List String := splitlinesGo [] s.data

/-- Python `sep.join(items)`. -/
def joinWith (sep : String) : List String → String
  | [] => ""
  | [x] => x
  | x :: y :: rest => x ++ sep ++ joinWith sep (y :: rest)

/-- Python `int()` on a digit list: accepts optional surrounding ASCII spaces
and an optional sign followed by a non-empty digit run, raising
(`Except.error`) otherwise. -/
def pyDigits (ds : List Char) : Except String Nat :=
  if !ds.isEmpty && ds.all isDigitCh then .ok (digitsToNat ds)
  else .error "invalid literal for int() with base 10"

/-- Python `int(s)` for a string argument. -/
def pyIntStr (cs : List Char) : Except String Int :=
  match ((cs.dropWhile (fun c => c = ' ')).reverse.dropWhile
            (fun c => c = ' ')).reverse with
  | [] => .error "invalid literal for int() with base 10"
  | c :: ds =>
    if c = '-' then
      match pyDigits ds with
      | .ok n => .ok (-(Int.ofNat n))
      | .error e => .error e
    else if c = '+' then
      match pyDigits ds with
      | .ok n => .ok (Int.ofNat n)
      | .error e => .error e
    else
      match pyDigits (c :: ds) with
      | .ok n => .ok (Int.ofNat n)
      | .error e => .error e

/-- The optional `(?:,\d+)?` group of the hunk-header pattern, followed by a
literal that is neither a comma nor a digit: if a comma is present it must be
followed by at least one digit (otherwise neither reading of the optional
group lets the match continue), else nothing is consumed. -/
def skipCount (cs : List Char) : Option (List Char) :=
  match cs with
  | [] => some []
  | c :: rest =>
    if c = ',' then
      if (rest.takeWhile isDigitCh).isEmpty then none
      else some (rest.dropWhile isDigitCh)
    else some cs

/-- Embedding of `re.match(r"@@ -(\d+)(?:,\d+)? \+(\d+)(?:,\d+)? @@", line)`, returning
the two captured digit groups (source line 77). -/
def matchHunkHeader (line : String) : Option (List Char × List Char) :=
  match dropPrefixCh "@@ -".data line.data with
  | none => none
  | some r1 =>
    let g1 := r1.takeWhile isDigitCh
    if g1.isEmpty then none else
    match skipCount (r1.dropWhile isDigitCh) with
    | none => none
    | some r3 =>
      match dropPrefixCh " +".data r3 with
      | none => none
      | some r4 =>
        let g2 := r4.takeWhile isDigitCh
        if g2.isEmpty then none else
        match skipCount (r4.dropWhile isDigitCh) with
        | none => none
        | some r6 =>
          match dropPrefixCh " @@".data r6 with
          | none => none
          | some _ => some (g1, g2)

/-- One hunk dictionary of `parse_diff` (source lines 79-84). -/
structure Hunk where
  old_start : Int
  new_start : Int
  lines : List String
  header : String
deriving DecidableEq, Repr

/-- One file dictionary of `parse_diff` (source line 68), with its hunk
references resolved. -/
structure FileChange where
  file : String
  hunks : List Hunk
deriving DecidableEq, Repr

/-- Mutable state of the `parse_diff` loop.  Hunk dictionaries live in the
arena `store`; `current_hunk` and the hunk lists hold arena indices, so the
aliasing of the Python dictionaries is represented exactly. -/
structure PState where
  file_changes : List (String × List Nat)
  store : List Hunk
  current_file : Option (String × List Nat)
  current_hunk : Option Nat
deriving DecidableEq, Repr

def defaultHunk : Hunk := ⟨0, 0, [], ""⟩

def appendLineToHunk (h : Hunk) (line : String) : Hunk :=
  { h with lines := h.lines ++ [line] }

def initPState : PState := ⟨[], [], none, none⟩

/-- One iteration of the `for line in diff_lines` loop of `parse_diff`
(source lines 51-89), branch for branch. -/
def step (s : PState) (line : String) : PState :=
  if startswith line "diff --git" then
    { file_changes := s.file_changes ++
        (match s.current_file with
         | some f => if f.2.isEmpty then [] else [f]
         | none => []),
      store := s.store, current_file := none, current_hunk := none }
  else if startswith line "--- a/" || startswith line "+++ b/" then
    let path := String.mk (line.data.drop 6)
    if startswith line "+++ b/" && path ≠ "/dev/null" then
      { s with current_file := some (path, []) }
    else s
  else if startswith line "@@" then
    match s.current_file with
    | some f =>
      let hs := match s.current_hunk with
        | some i => f.2 ++ [i]
        | none => f.2
      match matchHunkHeader line with
      | some g =>
        { s with current_file := some (f.1, hs),
                 current_hunk := some s.store.length,
                 store := s.store ++
                   [⟨(digitsToNat g.1 : Int), (digitsToNat g.2 : Int), [], line⟩] }
      | none => { s with current_file := some (f.1, hs) }
    | none => s
  else if s.current_hunk.isSome && s.current_file.isSome &&
          (startswith line "+" || startswith line "-" || startswith line " ") then
    match s.current_hunk with
    | some i =>
      { s with store := s.store.set i (appendLineToHunk (s.store.getD i defaultHunk) line) }
    | none => s
  else s

/-- Variant of `step` with the two `int()` conversions kept fallible, mirroring where
`parse_diff` could raise (source lines 80-81). -/
def stepE (s : PState) (line : String) : Except String PState :=
  if startswith line "diff --git" then
    .ok { file_changes := s.file_changes ++
            (match s.current_file with
             | some f => if f.2.isEmpty then [] else [f]
             | none => []),
          store := s.store, current_file := none, current_hunk := none }
  else if startswith line "--- a/" || startswith line "+++ b/" then
    let path := String.mk (line.data.drop 6)
    if startswith line "+++ b/" && path ≠ "/dev/null" then
      .ok { s with current_file := some (path, []) }
    else .ok s
  else if startswith line "@@" then
    match s.current_file with
    | some f =>
      let hs := match s.current_hunk with
        | some i => f.2 ++ [i]
        | none => f.2
      match matchHunkHeader line with
      | some g =>
        match pyIntStr g.1 with
        | .error e => .error e
        | .ok o =>
          match pyIntStr g.2 with
          | .error e => .error e
          | .ok n =>
            .ok { s with current_file := some (f.1, hs),
                         current_hunk := some s.store.length,
                         store := s.store ++ [⟨o, n, [], line⟩] }
      | none => .ok { s with current_file := some (f.1, hs) }
    | none => .ok s
  else if s.current_hunk.isSome && s.current_file.isSome &&
          (startswith line "+" || startswith line "-" || startswith line " ") then
    match s.current_hunk with
    | some i =>
      .ok { s with store := s.store.set i (appendLineToHunk (s.store.getD i defaultHunk) line) }
    | none => .ok s
  else .ok s

/-- The epilogue of `parse_diff` (source lines 92-95): close the open hunk
into the open file, then keep the open file if it has hunks. -/
def closeState (s : PState) : List (String × List Nat) :=
  let cf := match s.current_hunk, s.current_file with
    | some i, some f => some (f.1, f.2 ++ [i])
    | _, _ => s.current_file
  match cf with
  | some f => if f.2.isEmpty then s.file_changes else s.file_changes ++ [f]
  | none => s.file_changes

/-- Resolve the hunk references of a file record through the arena. -/
def derefFile (store : List Hunk) (f : String × List Nat) : FileChange :=
  ⟨f.1, f.2.map (fun i => store.getD i defaultHunk)⟩

/-- Embedding of `parse_diff(diff)` (source lines 43-103). -/
def parse_diff (diff : String) : List FileChange :=
  let st := (splitlines diff).foldl step initPState
  (closeState st).map (derefFile st.store)

/-- Variant of `parse_diff` with the fallible `int()` conversions surfaced as
`Except.error`, i.e. the function as Python would run it if a conversion
could raise. -/
def parse_diffE (diff : String) : Except String (List FileChange) := do
  let st ← (splitlines diff).foldlM stepE initPState
  pure ((closeState st).map (derefFile st.store))

/-- Decimal digits of `n` (fuel-indexed; fuel `n + 1` always suffices). -/
def natDigitsAux : Nat → Nat → List Char
  | 0, _ => []
  | fuel + 1, n =>
    if n < 10 then [Char.ofNat (48 + n)]
    else natDigitsAux fuel (n / 10) ++ [Char.ofNat (48 + n % 10)]

/-- Python `str(n)` for a natural number. -/
def natToStr (n : Nat) : String := String.mk (natDigitsAux (n + 1) n)

/-- Python `str(i)` for an integer. -/
def intToStr : Int → String
  | Int.ofNat n => natToStr n
  | Int.negSucc n => "-" ++ natToStr (n + 1)

/-- The generic fallback comment of `main` (source line 234), an f-string
rendering the starting line of the hunk. -/
def general_comment (new_start : Int) : String :=
  "AI审查了从第" ++ intToStr new_start ++ "行开始的代码块，但没有发现具体问题。请人工检查此代码块。"

/-- Embedding of `re.match(r"- \*\*Line (\d+)\*\*: (.*)", line)` (source line 216),
returning the relative line number and the comment body. -/
def matchFeedbackLine (line : String) : Option (Nat × String) :=
  match dropPrefixCh "- **Line ".data line.data with
  | none => none
  | some r1 =>
    let g := r1.takeWhile isDigitCh
    if g.isEmpty then none else
    match dropPrefixCh "**: ".data (r1.dropWhile isDigitCh) with
    | none => none
    | some rest => some (digitsToNat g, String.mk rest)

/-- The feedback extraction of `main` (source lines 214-221): scan the
feedback text line by line, keep the lines that start with `- **Line` and
match the pattern, in order. -/
def extractFeedback (feedback : String) : List (Nat × String) :=
  (splitlines feedback).filterMap (fun line =>
    if startswith line "- **Line" then matchFeedbackLine line else none)

/-- Outcome of processing one hunk in `main`: the `annotate` calls made (in
order, fallback included, each with the success flag the call returned) and
the `comment_count` / `success_count` tallies of source lines 210-229. -/
structure HunkReport where
  calls : List (String × Int × String × Bool)
  comment_count : Nat
  success_count : Nat
deriving DecidableEq, Repr

/-- The body of the per-hunk loop of `main` (source lines 202-235): join the
hunk lines into a snippet, call the analysis collaborator, extract feedback
items, post each at `relative + new_start - 1`, and post the generic
fallback comment at `new_start` when no item was produced. -/
def process_hunk (analyze : String → Hunk → String)
    (annotate : String → Int → String → Bool)
    (file_path : String) (hunk : Hunk) : HunkReport :=
  let snippet := joinWith "\n" hunk.lines
  let feedback := analyze snippet hunk
  let items := extractFeedback feedback
  let itemCalls := items.map (fun it =>
    let absLine : Int := (it.1 : Int) + hunk.new_start - 1
    (file_path, absLine, it.2, annotate file_path absLine it.2))
  let cc := items.length
  let sc := (itemCalls.filter (fun c => c.2.2.2)).length
  if cc = 0 then
    let g := general_comment hunk.new_start
    ⟨itemCalls ++ [(file_path, hunk.new_start, g, annotate file_path hunk.new_start g)],
     cc, sc⟩
  else ⟨itemCalls, cc, sc⟩

/-- The `for hunk in file_change["hunks"]` loop of `main` (source line 202),
collecting every `annotate` call in order. -/
def hunks_loop (analyze : String → Hunk → String)
    (annotate : String → Int → String → Bool)
    (file_path : String) : List Hunk → List (String × Int × String × Bool)
  | [] => []
  | h :: hs =>
    (process_hunk analyze annotate file_path h).calls ++
      hunks_loop analyze annotate file_path hs

/-- The `for file_change in file_changes` loop of `main` (source line 199),
collecting every `annotate` call in order. -/
def main_loop (analyze : String → Hunk → String)
    (annotate : String → Int → String → Bool) :
    List FileChange → List (String × Int × String × Bool)
  | [] => []
  | fc :: rest =>
    hunks_loop analyze annotate fc.file fc.hunks ++ main_loop analyze annotate rest

/-- A Python value that can reach the `line_number` parameter of
`post_comment`. -/
inductive PyVal where
  | vint : Int → PyVal
  | vstr : String → PyVal
  | vnone : PyVal
deriving DecidableEq, Repr

/-- Python `int(x)`: identity on integers, string parsing on strings
(`ValueError` on failure), `TypeError` on `None`. -/
def py_int : PyVal → Except String Int
  | .vint i => .ok i
  | .vstr s => pyIntStr s.data
  | .vnone => .error "TypeError: int() argument must not be NoneType"

def exceptIsOk : Except String Int → Bool
  | .ok _ => true
  | .error _ => false

/-- The JSON body `post_comment` sends (source lines 154-160). -/
structure CommentBody where
  body : String
  commit_id : String
  path : String
  line : Int
  side : String
deriving DecidableEq, Repr

/-- Embedding of `post_comment` (source lines 143-170), with the HTTP transport
abstracted as a function from the request body to the response status code.
The `try: int(line_number) except: line_number = 1` of lines 148-152 is the
`match` on `py_int`; the function returns the success boolean together with
the body it posted. -/
def post_comment (post : CommentBody → Nat) (commit_id file_path : String)
    (line_number : PyVal) (comment : String) : Bool × CommentBody :=
  let ln : Int :=
    match py_int line_number with
    | .ok i => i
    | .error _ => 1
  let b : CommentBody := ⟨comment, commit_id, file_path, ln, "RIGHT"⟩
  (decide (post b = 201), b)

/-- Lines of the hunk dictionary `current_hunk` currently open in the parser
state (empty when no hunk is open). -/
def currentHunkLines (s : PState) : List String :=
  match s.current_hunk with
  | some i => (s.store.getD i defaultHunk).lines
  | none => []

/-- A two-file diff in which the only hunk of each file is still open when the
next `diff --git` separator (or the end of input) is reached. -/
def c1_diff : String :=
  "diff --git a/a.txt b/a.txt\n--- a/a.txt\n+++ b/a.txt\n@@ -1,1 +1,1 @@\n-old\n+new\ndiff --git a/b.txt b/b.txt\n--- a/b.txt\n+++ b/b.txt\n@@ -2,1 +2,1 @@\n-x\n+y"

/-- A diff whose only hunk header carries new-file position `+0,0`
(a deletion-only hunk, as git emits when lines are removed at the top of a
file or the whole content of the file is removed). -/
def c2_diff : String :=
  "diff --git a/g b/g\n--- a/g\n+++ b/g\n@@ -1,2 +0,0 @@\n-a\n-b"

/-- The round-trip scenario diff: one file `src/a.py`, one hunk
`@@ -10,3 +10,4 @@`, four content lines. -/
def c3_diff : String :=
  "diff --git a/src/a.py b/src/a.py\n--- a/src/a.py\n+++ b/src/a.py\n@@ -10,3 +10,4 @@\n line1\n+line2\n line3\n+line4"

/-- The round-trip scenario feedback text. -/
def c3_feedback : String := "- **Line 2**: fix this\n- **Line 4**: nit"

/-- The file `parse_diff` produces for `c3_diff`. -/
def c3_file : FileChange :=
  ⟨"src/a.py",
   [⟨10, 10, [" line1", "+line2", " line3", "+line4"], "@@ -10,3 +10,4 @@"⟩]⟩

/-- A diff containing a malformed hunk header (`@@ bad`) while a hunk is
open. -/
def c4_diff_bad : String :=
  "diff --git a/x b/x\n--- a/x\n+++ b/x\n@@ -1,1 +1,1 @@\n a\n@@ bad\n b"

/-- Same text as `c4_diff_bad` with the malformed hunk-header line removed. -/
def c4_diff_clean : String :=
  "diff --git a/x b/x\n--- a/x\n+++ b/x\n@@ -1,1 +1,1 @@\n a\n b"

/-- The parser state reached on a prefix of a diff that leaves a hunk open:
file `f` is open and its first hunk has collected the line `" keep"`. -/
def c5_state : PState :=
  (splitlines "diff --git a/f b/f\n--- a/f\n+++ b/f\n@@ -1,2 +1,1 @@\n keep").foldl
    step initPState

/-- A small parser state with one open file and one open (in-range) hunk. -/
def c5_witness_state : PState :=
  ⟨[], [⟨1, 1, [], "@@ -1,1 +1,1 @@"⟩], some ("f", []), some 0⟩

/-- A concrete hunk used to instantiate universally quantified theorems. -/
def witness_hunk : Hunk := ⟨1, 5, [" x"], "@@ -1,1 +5,1 @@"⟩

theorem mem_takeWhile_sat {p : Char → Bool} :
    ∀ {l : List Char} {c : Char}, c ∈ l.takeWhile p → p c = true := by
  intro l
  induction l with
  | nil => intro c h; simp [List.takeWhile] at h
  | cons a l ih =>
    intro c h
    by_cases hp : p a
    · rw [List.takeWhile_cons, if_pos hp] at h
      rcases List.mem_cons.mp h with rfl | h
      · exact hp
      · exact ih h
    · rw [List.takeWhile_cons, if_neg hp] at h
      exact absurd h (List.not_mem_nil c)

theorem dropWhile_eq_self_of {q : Char → Bool} {l : List Char}
    (h : ∀ c ∈ l, q c = false) : l.dropWhile q = l := by
  cases l with
  | nil => rfl
  | cons a l =>
    rw [List.dropWhile_cons, if_neg]
    rw [h a (List.mem_cons_self a l)]
    simp

theorem digit_ne (c x : Char) (hx : isDigitCh x = false)
    (h : isDigitCh c = true) : c ≠ x := by
  intro e; rw [e, hx] at h; cases h

theorem pyDigits_digits {ds : List Char} (h1 : ds ≠ [])
    (h2 : ∀ c ∈ ds, isDigitCh c = true) :
    pyDigits ds = .ok (digitsToNat ds) := by
  have hcond : (!ds.isEmpty && ds.all isDigitCh) = true := by
    simp only [Bool.and_eq_true, Bool.not_eq_true']
    refine ⟨?_, List.all_eq_true.mpr h2⟩
    cases ds with
    | nil => exact absurd rfl h1
    | cons a l => rfl
  unfold pyDigits
  rw [if_pos hcond]

theorem pyIntStr_digits {cs : List Char} (h1 : cs ≠ [])
    (h2 : ∀ c ∈ cs, isDigitCh c = true) :
    pyIntStr cs = .ok (Int.ofNat (digitsToNat cs)) := by
  have hsp : ∀ c ∈ cs, (decide (c = ' ')) = false := by
    intro c hc
    simp [digit_ne c ' ' (by decide) (h2 c hc)]
  have e1 : cs.dropWhile (fun c => c = ' ') = cs := dropWhile_eq_self_of hsp
  have e2 : cs.reverse.dropWhile (fun c => c = ' ') = cs.reverse :=
    dropWhile_eq_self_of (fun c hc => hsp c (List.mem_reverse.mp hc))
  unfold pyIntStr
  rw [e1, e2, List.reverse_reverse]
  cases cs with
  | nil => exact absurd rfl h1
  | cons a l =>
    have ha : isDigitCh a = true := h2 a (List.mem_cons_self a l)
    show (if a = '-' then
            match pyDigits l with
            | Except.ok n => Except.ok (-Int.ofNat n)
            | Except.error e => Except.error e
          else if a = '+' then
            match pyDigits l with
            | Except.ok n => Except.ok (Int.ofNat n)
            | Except.error e => Except.error e
          else
            match pyDigits (a :: l) with
            | Except.ok n => Except.ok (Int.ofNat n)
            | Except.error e => Except.error e)
        = Except.ok (Int.ofNat (digitsToNat (a :: l)))
    rw [if_neg (digit_ne a '-' (by decide) ha),
        if_neg (digit_ne a '+' (by decide) ha),
        pyDigits_digits h1 h2]

theorem matchHunkHeader_groups {line : String} {g : List Char × List Char}
    (h : matchHunkHeader line = some g) :
    (g.1 ≠ [] ∧ ∀ c ∈ g.1, isDigitCh c = true) ∧
    (g.2 ≠ [] ∧ ∀ c ∈ g.2, isDigitCh c = true) := by
  unfold matchHunkHeader at h
  repeat' split at h
  all_goals try simp only [] at h
  all_goals repeat' split at h
  all_goals try cases h
  all_goals
    refine ⟨⟨?_, fun c hc => mem_takeWhile_sat hc⟩,
            ⟨?_, fun c hc => mem_takeWhile_sat hc⟩⟩
  all_goals intro e
  all_goals simp_all

theorem stepE_eq (s : PState) (line : String) : stepE s line = .ok (step s line) := by
  unfold stepE step
  split_ifs
  · rfl
  · simp only []
    split <;> rfl
  · cases hcf : s.current_file with
    | none => rfl
    | some f =>
      simp only []
      cases hm : matchHunkHeader line with
      | none => rfl
      | some g =>
        have hg := matchHunkHeader_groups hm
        simp only [pyIntStr_digits hg.1.1 hg.1.2, pyIntStr_digits hg.2.1 hg.2.2]
        rfl
  · split <;> rfl
  · rfl

theorem foldlM_stepE (lines : List String) :
    ∀ s : PState, List.foldlM stepE s lines = .ok (List.foldl step s lines) := by
  induction lines with
  | nil => intro s; rfl
  | cons a l ih =>
    intro s
    show stepE s a >>= (fun s2 => List.foldlM stepE s2 l) = _
    rw [stepE_eq]
    show List.foldlM stepE (step s a) l = _
    rw [ih]
    rfl

/-- C9: the parser is a total function of the diff text.  `parse_diffE`
keeps the two `int()` conversions of `parse_diff` fallible exactly where the
Python code could raise; on every input string it returns `Except.ok` of the
structural model, never an error. -/
theorem parse_diff_never_raises (diff : String) :
    parse_diffE diff = .ok (parse_diff diff) := by
  unfold parse_diffE parse_diff
  rw [show ((splitlines diff).foldlM stepE initPState : Except String PState)
        = .ok ((splitlines diff).foldl step initPState) from foldlM_stepE _ _]
  rfl

theorem storeOk_getD {st : List Hunk} (h : ∀ x ∈ st, 0 ≤ x.new_start) :
    ∀ i : Nat, 0 ≤ (st.getD i defaultHunk).new_start := by
  induction st with
  | nil => intro i; cases i <;> exact le_refl 0
  | cons a l ih =>
    intro i
    cases i with
    | zero => exact h a (List.mem_cons_self a l)
    | succ j => exact ih (fun x hx => h x (List.mem_cons_of_mem a hx)) j

theorem step_inv {s : PState} (line : String)
    (hf : ∀ f ∈ s.file_changes, f.2 ≠ [])
    (hs : ∀ x ∈ s.store, 0 ≤ x.new_start) :
    (∀ f ∈ (step s line).file_changes, f.2 ≠ []) ∧
    (∀ x ∈ (step s line).store, 0 ≤ x.new_start) := by
  unfold step
  split_ifs
  · refine ⟨?_, hs⟩
    intro f hfm
    rcases List.mem_append.mp hfm with h1 | h2
    · exact hf f h1
    · revert h2
      cases s.current_file with
      | none => intro h2; cases h2
      | some f0 =>
        simp only []
        split
        · intro h2; cases h2
        · intro h2
          rcases List.mem_singleton.mp h2 with rfl
          rename_i hne
          intro e
          rw [e] at hne
          exact hne rfl
  · simp only []
    split
    · exact ⟨hf, hs⟩
    · exact ⟨hf, hs⟩
  · cases s.current_file with
    | none => exact ⟨hf, hs⟩
    | some f =>
      simp only []
      cases matchHunkHeader line with
      | none => exact ⟨hf, hs⟩
      | some g =>
        refine ⟨hf, ?_⟩
        intro x hx
        rcases List.mem_append.mp hx with h1 | h2
        · exact hs x h1
        · rcases List.mem_singleton.mp h2 with rfl
          exact Int.ofNat_nonneg _
  · cases s.current_hunk with
    | none => exact ⟨hf, hs⟩
    | some i =>
      refine ⟨hf, ?_⟩
      intro x hx
      rcases List.mem_or_eq_of_mem_set hx with h1 | h2
      · exact hs x h1
      · rcases h2 with rfl
        exact storeOk_getD hs i
  · exact ⟨hf, hs⟩

theorem foldl_step_inv (lines : List String) :
    ∀ s : PState,
      (∀ f ∈ s.file_changes, f.2 ≠ []) →
      (∀ x ∈ s.store, 0 ≤ x.new_start) →
      (∀ f ∈ (lines.foldl step s).file_changes, f.2 ≠ []) ∧
      (∀ x ∈ (lines.foldl step s).store, 0 ≤ x.new_start) := by
  induction lines with
  | nil => intro s hf hs; exact ⟨hf, hs⟩
  | cons a l ih =>
    intro s hf hs
    have h1 := step_inv a hf hs
    exact ih (step s a) h1.1 h1.2

theorem closeState_files {s : PState}
    (hf : ∀ f ∈ s.file_changes, f.2 ≠ []) :
    ∀ f ∈ closeState s, f.2 ≠ [] := by
  unfold closeState
  intro f hfm
  revert hfm
  split
  · simp only []
    split
    · intro hfm; exact hf f hfm
    · intro hfm
      rcases List.mem_append.mp hfm with h1 | h2
      · exact hf f h1
      · rcases List.mem_singleton.mp h2 with rfl
        simp
  · simp only []
    split
    · split
      · intro hfm; exact hf f hfm
      · intro hfm
        rcases List.mem_append.mp hfm with h1 | h2
        · exact hf f h1
        · rcases List.mem_singleton.mp h2 with rfl
          rename_i hne
          intro e
          rw [e] at hne
          exact hne rfl
    · intro hfm; exact hf f hfm

/-- C2 (amended): for every input diff text, every `FileChange` emitted by
`parse_diff` has a non-empty `hunks` sequence, and every emitted `Hunk` has
`new_start ≥ 0` (the starting number parsed from the header, which can be
`0` for a deletion-only hunk such as `@@ -1,2 +0,0 @@`). -/
theorem parse_diff_files_have_hunks (diff : String) :
    ∀ fc ∈ parse_diff diff, fc.hunks ≠ [] ∧ ∀ h ∈ fc.hunks, 0 ≤ h.new_start := by
  intro fc hm
  unfold parse_diff at hm
  rcases List.mem_map.mp hm with ⟨f, hf, rfl⟩
  have hinv := foldl_step_inv (splitlines diff) initPState
    (by intro f h; cases h) (by intro x h; cases h)
  have hcf := closeState_files hinv.1 f hf
  constructor
  · unfold derefFile
    simp only []
    intro e
    exact hcf (List.map_eq_nil_iff.mp e)
  · intro h hh
    rcases List.mem_map.mp hh with ⟨i, hi, rfl⟩
    exact storeOk_getD hinv.2 i

/-- Witness for C2 (amended), instantiated at the `src/a.py` diff: the file
emitted for `c3_diff` has a non-empty hunk list with nonnegative starts. -/
theorem parse_diff_files_have_hunks_witness :
    c3_file.hunks ≠ [] ∧ ∀ h ∈ c3_file.hunks, 0 ≤ h.new_start :=
  parse_diff_files_have_hunks c3_diff c3_file (by decide)

/-- Counterexample for C2 as stated: on `c2_diff` the emitted hunk has
`new_start = 0`, so `new_start ≥ 1` does not hold for every input diff. -/
theorem parse_diff_new_start_zero :
    ¬ (∀ fc ∈ parse_diff c2_diff, ∀ h ∈ fc.hunks, 1 ≤ h.new_start) := by
  decide

/-- C1 (divergence from the claim, evaluated at the failing input): on the
two-file diff `c1_diff`, the `diff --git` branch of `parse_diff` (source
lines 53-61) appends the previous file only when it already has closed
hunks, and never closes the hunk that is still open; the open hunk is
discarded with the file, so only the second file appears in the output. -/
theorem parse_diff_drops_open_hunk_at_separator :
    parse_diff c1_diff =
      [⟨"b.txt", [⟨2, 2, ["-x", "+y"], "@@ -2,1 +2,1 @@"⟩]⟩] := by
  decide

/-- C4 (divergence from the claim, evaluated at the failing input): a
malformed hunk header encountered while a hunk is open is not simply
ignored.  The `@@` branch (source lines 71-85) first appends the open hunk
dictionary to the file but, when the pattern fails, leaves `current_hunk`
pointing at that same dictionary; later content lines keep mutating it and
the epilogue appends it a second time, so the output contains the hunk
twice — unlike the output on the same text with the malformed line removed. -/
theorem parse_diff_duplicates_hunk_on_malformed_header :
    parse_diff c4_diff_bad =
      [⟨"x", [⟨1, 1, [" a", " b"], "@@ -1,1 +1,1 @@"⟩,
              ⟨1, 1, [" a", " b"], "@@ -1,1 +1,1 @@"⟩]⟩]
    ∧ parse_diff c4_diff_clean =
      [⟨"x", [⟨1, 1, [" a", " b"], "@@ -1,1 +1,1 @@"⟩]⟩]
    ∧ parse_diff c4_diff_bad ≠ parse_diff c4_diff_clean := by
  decide

theorem getD_set_self {l : List Hunk} (v : Hunk) :
    ∀ i : Nat, i < l.length → (l.set i v).getD i defaultHunk = v := by
  induction l with
  | nil => intro i hi; cases hi
  | cons a t ih =>
    intro i hi
    cases i with
    | zero => rfl
    | succ j => exact ih j (Nat.lt_of_succ_lt_succ hi)

/-- Counterexample for C5 as stated: in the reachable parser state
`c5_state` a hunk is open and the line `"--- a/zz"` begins with `-`
(a deleted line whose text starts with `-- a/zz`), yet the parser does not
append it to the line list of the open hunk — the line is captured by the earlier
file-header branch of the conditional chain instead. -/
theorem content_line_not_appended :
    (startswith "--- a/zz" "-" = true
     ∧ c5_state.current_hunk.isSome = true
     ∧ c5_state.current_file.isSome = true)
    ∧ currentHunkLines (step c5_state "--- a/zz")
        ≠ currentHunkLines c5_state ++ ["--- a/zz"] := by
  decide

/-- C5 (amended): a line beginning with `+`, `-` or a single space that is
not claimed by an earlier branch of the conditional chain (it does not begin
with `diff --git`, `--- a/`, `+++ b/` or `@@`) is appended verbatim, in
encounter order, to the line list of the open hunk when a hunk (and file) is
open, and leaves the state unchanged when no hunk is open.  Lines beginning
with `--- a/` or `+++ b/` are exceptions: they are handled by the
file-header branch even while a hunk is open. -/
theorem content_lines_appended_verbatim (s : PState) (line : String)
    (hn1 : startswith line "diff --git" = false)
    (hn2 : startswith line "--- a/" = false)
    (hn3 : startswith line "+++ b/" = false)
    (hn4 : startswith line "@@" = false)
    (hc : startswith line "+" = true ∨ startswith line "-" = true
          ∨ startswith line " " = true) :
    (∀ i, s.current_hunk = some i → i < s.store.length →
       s.current_file.isSome = true →
       currentHunkLines (step s line) = currentHunkLines s ++ [line])
    ∧ (s.current_hunk = none → step s line = s) := by
  have hcl : (startswith line "+" || startswith line "-"
              || startswith line " ") = true := by
    rcases hc with h | h | h <;> simp [h]
  constructor
  · intro i hi hlen hcf
    have hcond : (s.current_hunk.isSome && s.current_file.isSome &&
        (startswith line "+" || startswith line "-" || startswith line " "))
        = true := by
      rw [hi, hcf, hcl]
      rfl
    unfold step
    rw [if_neg (by simp [hn1]), if_neg (by simp [hn2, hn3]),
        if_neg (by simp [hn4]), if_pos hcond, hi]
    simp only [currentHunkLines, hi]
    simp only [getD_set_self _ i hlen, appendLineToHunk]
  · intro hnone
    have hcond : (s.current_hunk.isSome && s.current_file.isSome &&
        (startswith line "+" || startswith line "-" || startswith line " "))
        = false := by
      rw [hnone]
      rfl
    unfold step
    rw [if_neg (by simp [hn1]), if_neg (by simp [hn2, hn3]),
        if_neg (by simp [hn4]), if_neg (by simp [hcond])]

/-- Witness for C5 (amended): in the concrete state `c5_witness_state` the
content line `" x"` is appended verbatim to the open hunk. -/
theorem content_lines_appended_verbatim_witness :
    currentHunkLines (step c5_witness_state " x")
      = currentHunkLines c5_witness_state ++ [" x"] :=
  (content_lines_appended_verbatim c5_witness_state " x"
    (by decide) (by decide) (by decide) (by decide)
    (Or.inr (Or.inr (by decide)))).1 0 rfl (by decide) (by decide)

theorem dropPrefixCh_append {q : List Char} :
    ∀ (p cs r : List Char), dropPrefixCh (p ++ q) cs = some r →
      (dropPrefixCh p cs).isSome = true := by
  intro p
  induction p with
  | nil => intro cs r _; rfl
  | cons a ps ih =>
    intro cs r h
    cases cs with
    | nil => cases h
    | cons c cs2 =>
      simp only [List.cons_append, dropPrefixCh] at h ⊢
      by_cases hca : c = a
      · rw [if_pos hca] at h ⊢
        exact ih cs2 r h
      · rw [if_neg hca] at h
        cases h

theorem matchFeedbackLine_startswith {line : String} {x : Nat × String}
    (h : matchFeedbackLine line = some x) :
    startswith line "- **Line" = true := by
  unfold matchFeedbackLine at h
  cases hd : dropPrefixCh "- **Line ".data line.data with
  | none => rw [hd] at h; cases h
  | some r1 =>
    have hd2 : dropPrefixCh ("- **Line".data ++ [' ']) line.data = some r1 := by
      rw [show ("- **Line".data ++ [' ']) = "- **Line ".data from by decide]
      exact hd
    exact dropPrefixCh_append "- **Line".data line.data r1 hd2

theorem guard_redundant (line : String) :
    (if startswith line "- **Line" then matchFeedbackLine line else none)
      = matchFeedbackLine line := by
  cases hguard : startswith line "- **Line" with
  | true => rfl
  | false =>
    show none = matchFeedbackLine line
    cases hm : matchFeedbackLine line with
    | none => rfl
    | some x =>
      rw [matchFeedbackLine_startswith hm] at hguard
      cases hguard

theorem filterMap_guard_eq :
    ∀ l : List String,
      l.filterMap (fun line =>
        if startswith line "- **Line" then matchFeedbackLine line else none)
        = l.filterMap matchFeedbackLine := by
  intro l
  induction l with
  | nil => rfl
  | cons a t ih =>
    rw [List.filterMap_cons, List.filterMap_cons, guard_redundant, ih]

theorem length_filterMap_isSome (f : String → Option (Nat × String)) :
    ∀ l : List String,
      (l.filterMap f).length = (l.filter (fun x => (f x).isSome)).length := by
  intro l
  induction l with
  | nil => rfl
  | cons a t ih =>
    rw [List.filterMap_cons, List.filter_cons]
    cases hf : f a with
    | none => simp [hf, ih]
    | some b => simp [hf, ih]

/-- C6: the extraction step of `main` is exactly the ordered `filterMap` of
the convention matcher over the feedback lines: every line matching
`- **Line N**: <comment>` yields one `(relativeLine, comment)` pair, in the
order the lines appear, every other line yields nothing, and a text with
exactly `k` matching lines yields exactly `k` pairs. -/
theorem extractFeedback_is_ordered_filterMap (t : String) :
    extractFeedback t = (splitlines t).filterMap matchFeedbackLine
    ∧ (extractFeedback t).length
        = ((splitlines t).filter (fun l => (matchFeedbackLine l).isSome)).length := by
  have h1 : extractFeedback t = (splitlines t).filterMap matchFeedbackLine := by
    unfold extractFeedback
    exact filterMap_guard_eq (splitlines t)
  refine ⟨h1, ?_⟩
  rw [h1]
  exact length_filterMap_isSome matchFeedbackLine (splitlines t)

/-- C3: on the round-trip scenario — diff `c3_diff` (file `src/a.py`, hunk
`@@ -10,3 +10,4 @@`, four content lines) and an analysis stub returning
`"- **Line 2**: fix this\n- **Line 4**: nit"` — the orchestrator dispatches
exactly two annotations, in order `(src/a.py, 11, "fix this")` and
`(src/a.py, 13, "nit")`, each absolute line being `relative + new_start - 1`,
whatever results the annotate collaborator returns. -/
theorem round_trip_two_annotations (annotate : String → Int → String → Bool) :
    (main_loop (fun _ _ => c3_feedback) annotate (parse_diff c3_diff)).map
        (fun c => (c.1, c.2.1, c.2.2.1))
      = [("src/a.py", 11, "fix this"), ("src/a.py", 13, "nit")] := by
  rfl

/-- C7: for every hunk whose analyzed feedback yields zero extracted items,
the orchestrator issues exactly one `annotate` call for that hunk, anchored
at the `new_start` of the hunk and carrying the generic manual-review message
(source lines 232-235); for every hunk yielding at least one item, no
fallback annotation is issued — the calls are exactly the item calls. -/
theorem fallback_annotation_policy (analyze : String → Hunk → String)
    (annotate : String → Int → String → Bool) (fp : String) (h : Hunk) :
    (extractFeedback (analyze (joinWith "\n" h.lines) h) = [] →
       (process_hunk analyze annotate fp h).calls
         = [(fp, h.new_start, general_comment h.new_start,
             annotate fp h.new_start (general_comment h.new_start))])
    ∧ (extractFeedback (analyze (joinWith "\n" h.lines) h) ≠ [] →
       (process_hunk analyze annotate fp h).calls.length
         = (extractFeedback (analyze (joinWith "\n" h.lines) h)).length) := by
  constructor
  · intro he
    simp only [process_hunk, he]
    rfl
  · intro hne
    simp only [process_hunk]
    rw [if_neg (fun e => hne (List.length_eq_zero.mp e))]
    simp [List.length_map]

/-- Witness for C7: with an analysis stub whose feedback contains no
convention line, the single fallback annotation is issued at the
start line of the hunk with the generic message. -/
theorem fallback_annotation_policy_witness :
    (process_hunk (fun _ _ => "looks fine") (fun _ _ _ => true) "f"
        witness_hunk).calls
      = [("f", 5, general_comment 5, true)] :=
  (fallback_annotation_policy (fun _ _ => "looks fine") (fun _ _ _ => true)
    "f" witness_hunk).1 (by decide)

theorem process_hunk_calls_proj (analyze : String → Hunk → String)
    (a : String → Int → String → Bool) (fp : String) (h : Hunk) :
    (process_hunk analyze a fp h).calls.map (fun c => (c.1, c.2.1, c.2.2.1))
      = (if (extractFeedback (analyze (joinWith "\n" h.lines) h)).length = 0
         then (extractFeedback (analyze (joinWith "\n" h.lines) h)).map
                (fun it => (fp, (it.1 : Int) + h.new_start - 1, it.2))
              ++ [(fp, h.new_start, general_comment h.new_start)]
         else (extractFeedback (analyze (joinWith "\n" h.lines) h)).map
                (fun it => (fp, (it.1 : Int) + h.new_start - 1, it.2))) := by
  simp only [process_hunk]
  split
  · simp [List.map_map, Function.comp]
  · simp [List.map_map, Function.comp]

theorem hunks_loop_proj (analyze : String → Hunk → String)
    (a1 a2 : String → Int → String → Bool) (fp : String) :
    ∀ hs : List Hunk,
      (hunks_loop analyze a1 fp hs).map (fun c => (c.1, c.2.1, c.2.2.1))
        = (hunks_loop analyze a2 fp hs).map (fun c => (c.1, c.2.1, c.2.2.1)) := by
  intro hs
  induction hs with
  | nil => rfl
  | cons hh t ih =>
    simp only [hunks_loop, List.map_append, ih,
      process_hunk_calls_proj analyze a1 fp hh,
      process_hunk_calls_proj analyze a2 fp hh]

theorem main_loop_proj (analyze : String → Hunk → String)
    (a1 a2 : String → Int → String → Bool) :
    ∀ fcs : List FileChange,
      (main_loop analyze a1 fcs).map (fun c => (c.1, c.2.1, c.2.2.1))
        = (main_loop analyze a2 fcs).map (fun c => (c.1, c.2.1, c.2.2.1)) := by
  intro fcs
  induction fcs with
  | nil => rfl
  | cons fc t ih =>
    simp only [main_loop, List.map_append, ih,
      hunks_loop_proj analyze a1 a2 fc.file fc.hunks]

/-- C8: a failed `annotate` call never prevents the remaining dispatch
attempts, and it is counted in the per-hunk tallies.  The sequence of
attempted annotations (file, line, comment) over all files and hunks is the
same whatever boolean results the annotate collaborator returns;
`comment_count` counts every extracted item whether or not its posting
succeeded; with an always-failing collaborator every item is still attempted
while `success_count` is `0`; and `success_count` never exceeds
`comment_count`. -/
theorem dispatch_failure_does_not_abort (analyze : String → Hunk → String)
    (a1 a2 : String → Int → String → Bool) (fcs : List FileChange)
    (fp : String) (h : Hunk) :
    (main_loop analyze a1 fcs).map (fun c => (c.1, c.2.1, c.2.2.1))
      = (main_loop analyze a2 fcs).map (fun c => (c.1, c.2.1, c.2.2.1))
    ∧ (process_hunk analyze a1 fp h).comment_count
        = (extractFeedback (analyze (joinWith "\n" h.lines) h)).length
    ∧ (process_hunk analyze (fun _ _ _ => false) fp h).success_count = 0
    ∧ (process_hunk analyze a1 fp h).success_count
        ≤ (process_hunk analyze a1 fp h).comment_count := by
  refine ⟨main_loop_proj analyze a1 a2 fcs, ?_, ?_, ?_⟩
  · simp only [process_hunk]
    split <;> rfl
  · simp only [process_hunk]
    have hnil : ((extractFeedback (analyze (joinWith "\n" h.lines) h)).map
        (fun it => (fp, (it.1 : Int) + h.new_start - 1, it.2,
          (fun _ _ _ => false) fp ((it.1 : Int) + h.new_start - 1) it.2))).filter
          (fun c => c.2.2.2) = [] := by
      rw [List.filter_eq_nil_iff]
      intro c hc
      rcases List.mem_map.mp hc with ⟨it, _, rfl⟩
      simp
    split <;> simp only [] <;> rw [hnil] <;> rfl
  · simp only [process_hunk]
    split <;> simp only [] <;>
      exact le_trans (List.length_filter_le _ _)
        (le_of_eq (List.length_map _ _))

/-- C10: when the `line_number` argument of `post_comment` cannot be
converted by `int()`, the `try/except` of source lines 148-152 substitutes
line `1` without raising; the comment is still posted with `"line": 1` in
the body, and the function returns the success boolean of the transport. -/
theorem post_comment_invalid_line (post : CommentBody → Nat)
    (commit fp comment : String) (v : PyVal)
    (hfail : exceptIsOk (py_int v) = false) :
    (post_comment post commit fp v comment).2
      = ⟨comment, commit, fp, 1, "RIGHT"⟩
    ∧ (post_comment post commit fp v comment).1
      = decide (post ⟨comment, commit, fp, 1, "RIGHT"⟩ = 201) := by
  unfold post_comment
  cases hpi : py_int v with
  | ok i =>
    rw [hpi] at hfail
    simp only [exceptIsOk] at hfail
    cases hfail
  | error e =>
    exact ⟨rfl, rfl⟩

/-- Witness for C10: the conversion `int("abc")` fails, so the comment is posted at line 1
and the returned boolean reflects the transport status (here 201, hence
`true`). -/
theorem post_comment_invalid_line_witness :
    (post_comment (fun _ => 201) "c0ffee" "src/a.py" (.vstr "abc") "msg").2
      = ⟨"msg", "c0ffee", "src/a.py", 1, "RIGHT"⟩
    ∧ (post_comment (fun _ => 201) "c0ffee" "src/a.py" (.vstr "abc") "msg").1
      = decide ((201 : Nat) = 201) :=
  post_comment_invalid_line (fun _ => 201) "c0ffee" "src/a.py" "msg"
    (.vstr "abc") (by decide)
